import Mathlib

/-!
Verification of `scripts/reset_test_project.py` (the repository reset
orchestrator) against its natural-language specification.

The script is embedded shallowly.  Each external `git` invocation is
resolved through an environment oracle (`Env.run`) mapping the exact
argument vector to the outcome the operating system would produce:
successful exit with captured stdout, non-zero exit (or any other
in-Python exception caught by `run_command`), or a failure to launch the
executable (Python `FileNotFoundError`).  The orchestrator itself is then
a total function from the environment to a result carrying the list of
issued commands (the trace) together with either a terminal run status or
a `sys.exit` code.
-/

/-- An external command: the argument vector handed to `subprocess.run`. -/
abbrev Cmd := List String

/-- Outcome of launching one external command, as observed by the Python
`try`/`except` blocks in `run_command`:
* `ok stdout` — the child exited with status 0 and produced `stdout`;
* `err` — `subprocess.CalledProcessError` (non-zero exit) or any other
  exception caught by the generic handler;
* `notFound` — `FileNotFoundError`: the executable could not be launched. -/
inductive CmdResult where
  | ok (stdout : String)
  | err
  | notFound
deriving Repr, DecidableEq

/-- The world the script runs against: the filesystem checks made before
any git command, the outcome of the one direct `subprocess.run` stash
invocation (return code and captured stdout), and the outcome oracle for
every command issued through `run_command`. -/
structure Env where
  /-- `os.path.isfile(GIT_EXECUTABLE)` in `__main__`. -/
  gitIsFile : Bool
  /-- `os.path.exists(repo_full_path)` in `__main__`. -/
  pathExi : Bool
  /-- `os.path.isdir(repo_path)`. -/
  pathIsDir : Bool
  /-- `os.path.isdir(os.path.join(repo_path, ".git"))`. -/
  gitDirIsDir : Bool
  /-- `returncode` of the direct `subprocess.run` stash push. -/
  stashReturncode : Int
  /-- captured stdout of the direct `subprocess.run` stash push. -/
  stashStdout : String
  /-- outcome of each command issued through `run_command`, keyed by the
  exact argument vector after the `git` → explicit path substitution. -/
  run : Cmd → CmdResult

/-- `GIT_EXECUTABLE` from the script. -/
def GIT_EXECUTABLE : String := "C:\\Program Files\\Git\\cmd\\git.exe"

/-- Python whitespace, as stripped by `str.strip()` (the ASCII cases). -/
def pyIsSpace (c : Char) : Bool :=
  c = ' ' || c = '\t' || c = '\n' || c = '\r' || c = '\x0b' || c = '\x0c'

/-- Python `s.strip()`: drop whitespace from both ends. -/
def pyStrip (s : String) : String :=
  String.mk (((s.data.dropWhile pyIsSpace).reverse.dropWhile pyIsSpace).reverse)

/-- Python `s.splitlines()` on text-mode output (universal newlines have
already been translated to `'\n'`): split at newline characters.  This
keeps a trailing empty piece that `splitlines` drops; every use site
filters blank pieces away, so the composition is unaffected. -/
def splitOnNl : List Char → List (List Char)
  | [] => [[]]
  | c :: cs =>
    if c = '\n' then [] :: splitOnNl cs
    else
      match splitOnNl cs with
      | [] => [[c]]
      | l :: ls => (c :: l) :: ls

/-- Python `s.replace('* ', '')`: remove every (non-overlapping,
left-to-right) occurrence of the two-character branch selection marker. -/
def stripStarMarker : List Char → List Char
  | [] => []
  | [c] => [c]
  | c :: c2 :: cs =>
    if c = '*' ∧ c2 = ' ' then stripStarMarker cs
    else c :: stripStarMarker (c2 :: cs)

/-- Python `pat in s` on lists of characters. -/
def containsSub (pat : List Char) : List Char → Bool
  | [] => pat.isEmpty
  | c :: cs => pat.isPrefixOf (c :: cs) || containsSub pat cs

/-- The substitution at the top of `run_command`:
`if cmd[0] == 'git': cmd = [GIT_EXECUTABLE] + cmd[1:]`. -/
def substGit (c : Cmd) : Cmd :=
  match c with
  | "git" :: rest => GIT_EXECUTABLE :: rest
  | _ => c

/-- Result of a step of the script: either a value together with the
trace of commands issued, or a `sys.exit code` raised part-way (also with
the trace issued up to that point). -/
inductive StepResult (α : Type) where
  | ok (trace : List Cmd) (val : α)
  | exit (trace : List Cmd) (code : Nat)
deriving Repr, DecidableEq

/-- The trace of commands a step issued, in both outcomes. -/
def StepResult.trace {α : Type} : StepResult α → List Cmd
  | .ok t _ => t
  | .exit t _ => t

/-- Sequencing of steps: a `sys.exit` short-circuits, traces accumulate. -/
def StepResult.andThen {α β : Type} (r : StepResult α) (f : α → StepResult β) :
    StepResult β :=
  match r with
  | .exit t c => .exit t c
  | .ok t a =>
    match f a with
    | .exit t2 c => .exit (t ++ t2) c
    | .ok t2 b => .ok (t ++ t2) b

/-- `run_command(cmd, cwd)`: substitutes the git path, launches the
command, and returns `Some(stdout.strip())` on success, `None` on a
caught failure, and calls `sys.exit(1)` on `FileNotFoundError`. -/
def run_command (env : Env) (cmd : Cmd) : StepResult (Option String) :=
  match env.run (substGit cmd) with
  | .ok s => .ok [substGit cmd] (some (pyStrip s))
  | .err => .ok [substGit cmd] none
  | .notFound => .exit [substGit cmd] 1

/-- The reference-existence query for `refs/heads/main`, after path
substitution. -/
def showRefMain : Cmd :=
  [GIT_EXECUTABLE, "show-ref", "--verify", "--quiet", "refs/heads/main"]

/-- The reference-existence query for `refs/heads/master`, after path
substitution. -/
def showRefMaster : Cmd :=
  [GIT_EXECUTABLE, "show-ref", "--verify", "--quiet", "refs/heads/master"]

/-- `get_main_branch_name(repo_path)`: returns "main" if its ref exists,
otherwise "master" if that ref exists, otherwise `None`. -/
def get_main_branch_name (env : Env) : StepResult (Option String) :=
  (run_command env ["git", "show-ref", "--verify", "--quiet", "refs/heads/main"]).andThen
    (fun r =>
      match r with
      | some _ => .ok [] (some "main")
      | none =>
        (run_command env
            ["git", "show-ref", "--verify", "--quiet", "refs/heads/master"]).andThen
          (fun r2 =>
            match r2 with
            | some _ => .ok [] (some "master")
            | none => .ok [] none))

/-- Python substring test `"No local changes" not in stash_result.stdout`. -/
def hasSubstring (s pat : String) : Bool :=
  containsSub pat.data s.data

/-- The direct `subprocess.run` stash push command (step 2). -/
def stashCmd : Cmd :=
  [GIT_EXECUTABLE, "stash", "push", "--include-untracked", "-m",
   "AutoAgentResetStash"]

/-- The stash drop command, after path substitution. -/
def stashDropCmd : Cmd := [GIT_EXECUTABLE, "stash", "drop"]

/-- Step 2 of `reset_repository`: the stash push is issued directly via
`subprocess.run`; when it exited 0 and stdout lacks "No local changes", a
stash entry was created and is dropped through `run_command` (a failed
drop is only a warning); otherwise only messages are printed. -/
def stash_step (env : Env) : StepResult Unit :=
  if env.stashReturncode = 0 ∧ ¬ hasSubstring env.stashStdout "No local changes" then
    match run_command env ["git", "stash", "drop"] with
    | .exit t c => .exit (stashCmd :: t) c
    | .ok t _ => .ok (stashCmd :: t) ()
  else
    .ok [stashCmd] ()

/-- The checkout command for a branch, after path substitution. -/
def checkoutCmd (b : String) : Cmd := [GIT_EXECUTABLE, "checkout", b]

/-- The current-branch query, after path substitution. -/
def showCurrentCmd : Cmd := [GIT_EXECUTABLE, "branch", "--show-current"]

/-- The fetch command for a branch, after path substitution. -/
def fetchCmd (b : String) : Cmd := [GIT_EXECUTABLE, "fetch", "origin", b]

/-- The hard-reset command for a target, after path substitution. -/
def resetCmd (target : String) : Cmd := [GIT_EXECUTABLE, "reset", "--hard", target]

/-- The clean command, after path substitution. -/
def cleanCmd : Cmd := [GIT_EXECUTABLE, "clean", "-fdx"]

/-- The branch-listing command, after path substitution. -/
def branchListCmd : Cmd := [GIT_EXECUTABLE, "branch"]

/-- A forced branch deletion, after path substitution. -/
def branchDelForced (b : String) : Cmd := [GIT_EXECUTABLE, "branch", "-D", b]

/-- A lenient branch deletion, after path substitution. -/
def branchDelSafe (b : String) : Cmd := [GIT_EXECUTABLE, "branch", "-d", b]

/-- The loop of step 7: for each listed branch other than the main one,
try `git branch -D`; on failure fall back to `git branch -d`; count
deletions and record branches for which both attempts failed. -/
def delete_branches (env : Env) (main_branch : String) :
    List String → StepResult (Nat × List String)
  | [] => .ok [] (0, [])
  | b :: rest =>
    if b = main_branch then delete_branches env main_branch rest
    else
      (run_command env ["git", "branch", "-D", b]).andThen (fun r =>
        match r with
        | some _ =>
          (delete_branches env main_branch rest).andThen
            (fun p => .ok [] (p.1 + 1, p.2))
        | none =>
          (run_command env ["git", "branch", "-d", b]).andThen (fun r2 =>
            match r2 with
            | some _ =>
              (delete_branches env main_branch rest).andThen
                (fun p => .ok [] (p.1 + 1, p.2))
            | none =>
              (delete_branches env main_branch rest).andThen
                (fun p => .ok [] (p.1, b :: p.2))))

/-- The branch parsing of step 7:
`[b.strip().replace('* ', '') for b in branches_output.splitlines() if b.strip()]`.
(`stdout` passed through Python text mode has universal newlines, so
`splitlines` on it is a split at newline characters.) -/
def parseBranches (s : String) : List String :=
  (((splitOnNl s.data).map String.mk).filter (fun b => pyStrip b ≠ "")).map
    (fun b => String.mk (stripStarMarker (pyStrip b).data))

/-- Step 7 of `reset_repository`: list local branches; `if branches_output:`
is Python truthiness, so both a failed listing (`None`) and an empty
stripped listing (`""`) skip the whole pruning step. -/
def prune_step (env : Env) (main_branch : String) : StepResult Unit :=
  (run_command env ["git", "branch"]).andThen (fun bo =>
    match bo with
    | none => .ok [] ()
    | some s =>
      if s = "" then .ok [] ()
      else (delete_branches env main_branch (parseBranches s)).andThen
        (fun _ => .ok [] ()))

/-- Terminal status of one `reset_repository` call: where the function
returned. -/
inductive RunStatus where
  /-- early return: the path is not an initialized repository. -/
  | notARepo
  /-- early return: neither `main` nor `master` exists. -/
  | noTrunk
  /-- early return: the checkout command failed. -/
  | checkoutFailed
  /-- early return: the post-checkout branch verification failed. -/
  | verifyFailed
  /-- early return: the hard reset failed. -/
  | resetFailed
  /-- the function ran to its final print. -/
  | completed
deriving Repr, DecidableEq

/-- Steps 5–7 of `reset_repository`, from the hard reset on, as a
function of the fetch outcome `fe` (step 4): the reset target is local
`HEAD` when the fetch failed and `origin/<main_branch>` when it
succeeded; a failed hard reset returns early; a failed clean is only a
warning; then branches are pruned. -/
def sync_tail (env : Env) (main_branch : String) (fe : Option String) :
    StepResult RunStatus :=
  let reset_target :=
    (match fe with
    | none => "HEAD"
    | some _ => "origin/" ++ main_branch)
  (run_command env ["git", "reset", "--hard", reset_target]).andThen
    (fun rs =>
    match rs with
    | none => .ok [] .resetFailed
    | some _ =>
      (run_command env ["git", "clean", "-fdx"]).andThen (fun _ =>
      (prune_step env main_branch).andThen (fun _ =>
        .ok [] .completed)))

/-- `reset_repository(repo_path)`: the full step sequence of the script,
with each early `return` mapped to its `RunStatus`. -/
def reset_repository (env : Env) : StepResult RunStatus :=
  if ¬ (env.pathIsDir ∧ env.gitDirIsDir) then .ok [] .notARepo
  else
    (get_main_branch_name env).andThen (fun mb =>
      match mb with
      | none => .ok [] .noTrunk
      | some main_branch =>
        (stash_step env).andThen (fun _ =>
        (run_command env ["git", "checkout", main_branch]).andThen (fun co =>
        match co with
        | none => .ok [] .checkoutFailed
        | some _ =>
          (run_command env ["git", "branch", "--show-current"]).andThen
            (fun current_branch_check =>
          if current_branch_check ≠ some main_branch then .ok [] .verifyFailed
          else
            (run_command env ["git", "fetch", "origin", main_branch]).andThen
              (sync_tail env main_branch)))))

/-- What the whole process produced: its exit status, and — when the
configuration checks in `__main__` passed — the result of the
`reset_repository` call. -/
structure ScriptResult where
  exitCode : Nat
  report : Option (StepResult RunStatus)
deriving Repr, DecidableEq

/-- The `__main__` block: configuration checks (git executable is a file,
path exists, path is a directory), each failing with `sys.exit(1)`; then
`reset_repository`.  A normal return from `reset_repository` — early
aborts included — falls off the end of the script, so the process exits 0;
only a `sys.exit` inside a step yields its non-zero code. -/
def script (env : Env) : ScriptResult :=
  if ¬ env.gitIsFile then ⟨1, none⟩
  else if ¬ env.pathExi then ⟨1, none⟩
  else if ¬ env.pathIsDir then ⟨1, none⟩
  else
    match reset_repository env with
    | .exit t c => ⟨c, some (.exit t c)⟩
    | .ok t st => ⟨0, some (.ok t st)⟩

/-- A command that changes repository state: stash, checkout, reset,
clean, or branch deletion. -/
def isStateChanging (c : Cmd) : Bool :=
  match c with
  | _ :: "stash" :: _ => true
  | _ :: "checkout" :: _ => true
  | _ :: "reset" :: _ => true
  | _ :: "clean" :: _ => true
  | _ :: "branch" :: "-D" :: _ => true
  | _ :: "branch" :: "-d" :: _ => true
  | _ => false

/-- A command belonging to the steps after checkout verification: fetch,
hard reset, clean, branch listing, or branch deletion. -/
def isPostVerifyCmd (c : Cmd) : Bool :=
  match c with
  | _ :: "fetch" :: _ => true
  | _ :: "reset" :: _ => true
  | _ :: "clean" :: _ => true
  | [_, "branch"] => true
  | _ :: "branch" :: "-D" :: _ => true
  | _ :: "branch" :: "-d" :: _ => true
  | _ => false

/-- A command belonging to the Workspace Cleaner or the Branch Pruner:
clean, branch listing, or branch deletion. -/
def isCleanOrPruneCmd (c : Cmd) : Bool :=
  match c with
  | _ :: "clean" :: _ => true
  | [_, "branch"] => true
  | _ :: "branch" :: "-D" :: _ => true
  | _ :: "branch" :: "-d" :: _ => true
  | _ => false

/-! ## Basic lemmas about step sequencing -/

theorem exit_andThen {α β : Type} (t : List Cmd) (c : Nat) (f : α → StepResult β) :
    (StepResult.exit t c).andThen f = .exit t c := rfl

theorem ok_andThen_ok {α β : Type} {t : List Cmd} {a : α} {f : α → StepResult β}
    {t2 : List Cmd} {b : β} (h : f a = .ok t2 b) :
    (StepResult.ok t a).andThen f = .ok (t ++ t2) b := by
  simp [StepResult.andThen, h]

theorem ok_andThen_exit {α β : Type} {t : List Cmd} {a : α} {f : α → StepResult β}
    {t2 : List Cmd} {c : Nat} (h : f a = .exit t2 c) :
    (StepResult.ok t a).andThen f = .exit (t ++ t2) c := by
  simp [StepResult.andThen, h]

/-- Every `sys.exit` a step can raise carries code 1 (the only exit call
sites in the script pass 1). -/
def ExitsOne {α : Type} (r : StepResult α) : Prop :=
  ∀ t c, r = .exit t c → c = 1

theorem exitsOne_ok {α : Type} (t : List Cmd) (a : α) :
    ExitsOne (StepResult.ok t a) := by
  intro t' c' h
  cases h

theorem exitsOne_andThen {α β : Type} {r : StepResult α} {f : α → StepResult β}
    (h1 : ExitsOne r) (h2 : ∀ a, ExitsOne (f a)) : ExitsOne (r.andThen f) := by
  intro t c heq
  cases r with
  | exit t0 c0 =>
    rw [exit_andThen] at heq
    injection heq with ht hc
    exact hc ▸ h1 t0 c0 rfl
  | ok t0 a =>
    cases hfa : f a with
    | ok t2 b =>
      rw [ok_andThen_ok hfa] at heq
      cases heq
    | exit t2 c2 =>
      rw [ok_andThen_exit hfa] at heq
      injection heq with ht hc
      exact hc ▸ h2 a t2 c2 hfa

theorem exitsOne_run_command (env : Env) (cmd : Cmd) :
    ExitsOne (run_command env cmd) := by
  intro t c h
  unfold run_command at h
  cases henv : env.run (substGit cmd) with
  | ok s => rw [henv] at h; cases h
  | err => rw [henv] at h; cases h
  | notFound => rw [henv] at h; cases h; rfl

theorem exitsOne_get_main_branch_name (env : Env) :
    ExitsOne (get_main_branch_name env) := by
  unfold get_main_branch_name
  refine exitsOne_andThen (exitsOne_run_command env _) ?_
  intro a
  cases a with
  | some s => exact exitsOne_ok _ _
  | none =>
    refine exitsOne_andThen (exitsOne_run_command env _) ?_
    intro a2
    cases a2 <;> exact exitsOne_ok _ _

theorem exitsOne_stash_step (env : Env) : ExitsOne (stash_step env) := by
  unfold stash_step
  split
  · cases h : run_command env ["git", "stash", "drop"] with
    | ok t v =>
      intro t' c' h'
      cases h'
    | exit t c =>
      intro t' c' h'
      cases h'
      exact exitsOne_run_command env _ t c h
  · exact exitsOne_ok _ _

theorem exitsOne_delete_branches (env : Env) (mb : String) (bs : List String) :
    ExitsOne (delete_branches env mb bs) := by
  induction bs with
  | nil => exact exitsOne_ok _ _
  | cons b rest ih =>
    unfold delete_branches
    split
    · exact ih
    · refine exitsOne_andThen (exitsOne_run_command env _) ?_
      intro r
      cases r with
      | some s => exact exitsOne_andThen ih (fun p => exitsOne_ok _ _)
      | none =>
        refine exitsOne_andThen (exitsOne_run_command env _) ?_
        intro r2
        cases r2 with
        | some s => exact exitsOne_andThen ih (fun p => exitsOne_ok _ _)
        | none => exact exitsOne_andThen ih (fun p => exitsOne_ok _ _)

theorem exitsOne_prune_step (env : Env) (mb : String) :
    ExitsOne (prune_step env mb) := by
  unfold prune_step
  refine exitsOne_andThen (exitsOne_run_command env _) ?_
  intro bo
  cases bo with
  | none => exact exitsOne_ok _ _
  | some s =>
    dsimp only
    split
    · exact exitsOne_ok _ _
    · exact exitsOne_andThen (exitsOne_delete_branches env mb _)
        (fun _ => exitsOne_ok _ _)

theorem exitsOne_sync_tail (env : Env) (mb : String) (fe : Option String) :
    ExitsOne (sync_tail env mb fe) := by
  unfold sync_tail
  refine exitsOne_andThen (exitsOne_run_command env _) ?_
  intro rs
  cases rs with
  | none => exact exitsOne_ok _ _
  | some _ =>
    refine exitsOne_andThen (exitsOne_run_command env _) ?_
    intro _
    exact exitsOne_andThen (exitsOne_prune_step env _) (fun _ => exitsOne_ok _ _)

theorem exitsOne_reset_repository (env : Env) :
    ExitsOne (reset_repository env) := by
  unfold reset_repository
  split
  · exact exitsOne_ok _ _
  · refine exitsOne_andThen (exitsOne_get_main_branch_name env) ?_
    intro mb
    cases mb with
    | none => exact exitsOne_ok _ _
    | some main_branch =>
      refine exitsOne_andThen (exitsOne_stash_step env) ?_
      intro _
      refine exitsOne_andThen (exitsOne_run_command env _) ?_
      intro co
      cases co with
      | none => exact exitsOne_ok _ _
      | some _ =>
        refine exitsOne_andThen (exitsOne_run_command env _) ?_
        intro cur
        dsimp only
        split
        · exact exitsOne_ok _ _
        · exact exitsOne_andThen (exitsOne_run_command env _)
            (fun fe => exitsOne_sync_tail env main_branch fe)

/-! ## Characterizing equations for the individual steps -/

theorem get_main_eq_main_ok {env : Env} {s : String}
    (h : env.run showRefMain = .ok s) :
    get_main_branch_name env = .ok [showRefMain] (some "main") := by
  simp only [showRefMain] at h
  simp [get_main_branch_name, run_command, substGit, h, StepResult.andThen,
    showRefMain]

theorem get_main_eq_master_ok {env : Env} {s : String}
    (h : env.run showRefMain = .err) (h2 : env.run showRefMaster = .ok s) :
    get_main_branch_name env = .ok [showRefMain, showRefMaster] (some "master") := by
  simp only [showRefMain] at h
  simp only [showRefMaster] at h2
  simp [get_main_branch_name, run_command, substGit, h, h2, StepResult.andThen,
    showRefMain, showRefMaster]

theorem get_main_eq_none {env : Env}
    (h : env.run showRefMain = .err) (h2 : env.run showRefMaster = .err) :
    get_main_branch_name env = .ok [showRefMain, showRefMaster] none := by
  simp only [showRefMain] at h
  simp only [showRefMaster] at h2
  simp [get_main_branch_name, run_command, substGit, h, h2, StepResult.andThen,
    showRefMain, showRefMaster]

theorem get_main_eq_exit_main {env : Env}
    (h : env.run showRefMain = .notFound) :
    get_main_branch_name env = .exit [showRefMain] 1 := by
  simp only [showRefMain] at h
  simp [get_main_branch_name, run_command, substGit, h, StepResult.andThen,
    showRefMain]

/-! ## Claim C5 — the Command Runner conveys failure through its outcome -/

/-- C5: for every command invocation, the Command Runner returns an
outcome (success value or failure marker `none`) for any non-zero exit of
the child process; the only condition that escapes as a hard,
run-terminating failure (`sys.exit 1`) is that the version-control
executable cannot be located/launched (`FileNotFoundError`). -/
theorem C5_command_runner_total (env : Env) (cmd : Cmd) :
    (∃ s, env.run (substGit cmd) = .ok s ∧
      run_command env cmd = .ok [substGit cmd] (some (pyStrip s)))
    ∨ (env.run (substGit cmd) = .err ∧
        run_command env cmd = .ok [substGit cmd] none)
    ∨ (env.run (substGit cmd) = .notFound ∧
        run_command env cmd = .exit [substGit cmd] 1) := by
  cases h : env.run (substGit cmd) with
  | ok s => exact Or.inl ⟨s, rfl, by simp [run_command, h]⟩
  | err => exact Or.inr (Or.inl ⟨rfl, by simp [run_command, h]⟩)
  | notFound => exact Or.inr (Or.inr ⟨rfl, by simp [run_command, h]⟩)

/-! ## Claim C9 — the Branch Resolver prefers `main` and short-circuits -/

/-- C9: whenever the `refs/heads/main` existence query succeeds, the
Branch Resolver returns "main" with a trace consisting of that single
query — `master` is never queried; and whenever the `master` query
appears in the resolver's trace, the `main` query reported
non-existence. -/
theorem C9_branch_resolver_short_circuit (env : Env) :
    (∀ s, env.run showRefMain = .ok s →
      get_main_branch_name env = .ok [showRefMain] (some "main"))
    ∧ (showRefMaster ∈ (get_main_branch_name env).trace →
        env.run showRefMain = .err) := by
  constructor
  · intro s h
    exact get_main_eq_main_ok h
  · intro hmem
    cases h : env.run showRefMain with
    | ok s =>
      rw [get_main_eq_main_ok h] at hmem
      simp [StepResult.trace] at hmem
      exact absurd hmem (by decide)
    | err => rfl
    | notFound =>
      rw [get_main_eq_exit_main h] at hmem
      simp [StepResult.trace] at hmem
      exact absurd hmem (by decide)

/-- An environment in which `refs/heads/main` exists and every other
command fails with a non-zero exit. -/
def envMainOnly : Env :=
  { gitIsFile := true, pathExi := true, pathIsDir := true, gitDirIsDir := true,
    stashReturncode := 1, stashStdout := "",
    run := fun c => if c = showRefMain then .ok "" else .err }

/-- Witness for C9 at a concrete environment. -/
theorem C9_branch_resolver_short_circuit_witness :
    get_main_branch_name envMainOnly = .ok [showRefMain] (some "main") :=
  (C9_branch_resolver_short_circuit envMainOnly).1 "" (by decide)

/-! ## Claim C2 — a missing trunk aborts before any destructive command -/

/-- C2: when neither `main` nor `master` exists (both reference-existence
queries report failure), `reset_repository` returns the `NoTrunkBranch`
abort having issued exactly the two queries, and neither is a
state-changing command (stash, checkout, reset, clean, branch delete) —
so the repository state is untouched by the run. -/
theorem C2_no_trunk_aborts_before_destruction (env : Env)
    (hdir : env.pathIsDir = true) (hgit : env.gitDirIsDir = true)
    (hmain : env.run showRefMain = .err)
    (hmaster : env.run showRefMaster = .err) :
    reset_repository env = .ok [showRefMain, showRefMaster] .noTrunk
    ∧ ∀ c ∈ ([showRefMain, showRefMaster] : List Cmd),
        isStateChanging c = false := by
  refine ⟨?_, by decide⟩
  have hm := get_main_eq_none hmain hmaster
  simp [reset_repository, hdir, hgit, hm, StepResult.andThen]

/-- An environment in which every git command fails with a non-zero exit
(in particular, neither trunk reference exists) but all configuration
checks pass. -/
def envNoTrunk : Env :=
  { gitIsFile := true, pathExi := true, pathIsDir := true, gitDirIsDir := true,
    stashReturncode := 1, stashStdout := "",
    run := fun _ => .err }

/-- Witness for C2 at a concrete environment. -/
theorem C2_no_trunk_aborts_before_destruction_witness :
    reset_repository envNoTrunk = .ok [showRefMain, showRefMaster] .noTrunk
    ∧ ∀ c ∈ ([showRefMain, showRefMaster] : List Cmd),
        isStateChanging c = false :=
  C2_no_trunk_aborts_before_destruction envNoTrunk rfl rfl rfl rfl

/-! ## Claim C1 — process exit status -/

/-- C1 counterexample: in `envNoTrunk` the run ends in the fatal
`NoTrunkBranch` abort, yet the process exit status is 0 — `__main__`
never converts an early `return` of `reset_repository` into a non-zero
exit, contradicting the claim that the status is non-zero whenever the
run ends in `AbortedFatal`. -/
theorem C1_counterexample_fatal_abort_exits_zero :
    (script envNoTrunk).exitCode = 0 ∧
    (script envNoTrunk).report =
      some (.ok [showRefMain, showRefMaster] .noTrunk) := by decide

/-- C1 as amended: the process exit status is 0 exactly when the three
configuration checks pass (VCS executable present, target path exists and
is a directory) and no git invocation hits a launch failure — i.e. when
`reset_repository` returns normally, whether it completed or aborted
early (`AbortedFatal` ends included); it is non-zero only on those
configuration errors or on a `FileNotFoundError` inside a git call. -/
theorem C1_amended_exit_status (env : Env) :
    (script env).exitCode = 0 ↔
      (env.gitIsFile = true ∧ env.pathExi = true ∧ env.pathIsDir = true ∧
        ∃ t st, reset_repository env = .ok t st) := by
  cases h1 : env.gitIsFile with
  | false => simp [script, h1]
  | true =>
    cases h2 : env.pathExi with
    | false => simp [script, h1, h2]
    | true =>
      cases h3 : env.pathIsDir with
      | false => simp [script, h1, h2, h3]
      | true =>
        cases hr : reset_repository env with
        | ok t st => simp [script, h1, h2, h3, hr]
        | exit t c =>
          have hc : c = 1 := exitsOne_reset_repository env t c hr
          subst hc
          simp [script, h1, h2, h3, hr]

/-! ## Trace machinery -/

theorem get_main_eq_exit_master {env : Env}
    (h : env.run showRefMain = .err) (h2 : env.run showRefMaster = .notFound) :
    get_main_branch_name env = .exit [showRefMain, showRefMaster] 1 := by
  simp only [showRefMain] at h
  simp only [showRefMaster] at h2
  simp [get_main_branch_name, run_command, substGit, h, h2, StepResult.andThen,
    showRefMain, showRefMaster]

theorem run_command_trace (env : Env) (cmd : Cmd) :
    (run_command env cmd).trace = [substGit cmd] := by
  cases h : env.run (substGit cmd) <;> simp [run_command, h, StepResult.trace]

theorem trace_andThen_cases {α β : Type} (r : StepResult α)
    (f : α → StepResult β) (c : Cmd) (h : c ∈ (r.andThen f).trace) :
    c ∈ r.trace ∨ ∃ t a, r = .ok t a ∧ c ∈ (f a).trace := by
  cases r with
  | exit t0 c0 =>
    rw [exit_andThen] at h
    exact Or.inl h
  | ok t0 a =>
    cases hfa : f a with
    | ok t2 b =>
      rw [ok_andThen_ok hfa] at h
      simp [StepResult.trace] at h ⊢
      rcases h with h | h
      · exact Or.inl h
      · exact Or.inr ⟨t0, a, ⟨rfl, rfl⟩, by simp [hfa, StepResult.trace, h]⟩
    | exit t2 c2 =>
      rw [ok_andThen_exit hfa] at h
      simp [StepResult.trace] at h ⊢
      rcases h with h | h
      · exact Or.inl h
      · exact Or.inr ⟨t0, a, ⟨rfl, rfl⟩, by simp [hfa, StepResult.trace, h]⟩

theorem mem_andThen_left {α β : Type} {r : StepResult α}
    {f : α → StepResult β} {c : Cmd} (h : c ∈ r.trace) :
    c ∈ (r.andThen f).trace := by
  cases r with
  | exit t0 c0 => rw [exit_andThen]; exact h
  | ok t0 a =>
    cases hfa : f a with
    | ok t2 b =>
      rw [ok_andThen_ok hfa]
      simp [StepResult.trace] at h ⊢
      exact Or.inl h
    | exit t2 c2 =>
      rw [ok_andThen_exit hfa]
      simp [StepResult.trace] at h ⊢
      exact Or.inl h

theorem mem_andThen_right {α β : Type} {t : List Cmd} {a : α}
    {f : α → StepResult β} {c : Cmd} (h : c ∈ (f a).trace) :
    c ∈ ((StepResult.ok t a).andThen f).trace := by
  cases hfa : f a with
  | ok t2 b =>
    rw [ok_andThen_ok hfa]
    rw [hfa] at h
    simp [StepResult.trace] at h ⊢
    exact Or.inr h
  | exit t2 c2 =>
    rw [ok_andThen_exit hfa]
    rw [hfa] at h
    simp [StepResult.trace] at h ⊢
    exact Or.inr h

/-- Every command the Branch Resolver issues is one of the two
reference-existence queries. -/
theorem get_main_trace_shape (env : Env) :
    ∀ c ∈ (get_main_branch_name env).trace,
      c = showRefMain ∨ c = showRefMaster := by
  intro c hc
  cases h1 : env.run showRefMain with
  | ok s =>
    rw [get_main_eq_main_ok h1] at hc
    simp [StepResult.trace] at hc
    simp [hc]
  | notFound =>
    rw [get_main_eq_exit_main h1] at hc
    simp [StepResult.trace] at hc
    simp [hc]
  | err =>
    cases h2 : env.run showRefMaster with
    | ok s =>
      rw [get_main_eq_master_ok h1 h2] at hc
      simp [StepResult.trace] at hc
      tauto
    | err =>
      rw [get_main_eq_none h1 h2] at hc
      simp [StepResult.trace] at hc
      tauto
    | notFound =>
      rw [get_main_eq_exit_master h1 h2] at hc
      simp [StepResult.trace] at hc
      tauto

/-- Every command the Stash Handler issues is the stash push or the stash
drop. -/
theorem stash_trace_shape (env : Env) :
    ∀ c ∈ (stash_step env).trace, c = stashCmd ∨ c = stashDropCmd := by
  intro c hc
  unfold stash_step at hc
  split at hc
  · cases h : env.run stashDropCmd with
    | ok s =>
      simp only [stashDropCmd] at h
      simp [run_command, substGit, h, StepResult.trace, stashDropCmd] at hc
      tauto
    | err =>
      simp only [stashDropCmd] at h
      simp [run_command, substGit, h, StepResult.trace, stashDropCmd] at hc
      tauto
    | notFound =>
      simp only [stashDropCmd] at h
      simp [run_command, substGit, h, StepResult.trace, stashDropCmd] at hc
      tauto
  · simp [StepResult.trace] at hc
    simp [hc]

/-! ## Big-step equations for `reset_repository` -/

/-- The reset target dictated by the fetch outcome: `HEAD` when the fetch
of `origin/<trunk>` failed, the remote-tracking reference when it
succeeded. -/
def FetchGives (env : Env) (mb tgt : String) : Prop :=
  (env.run (fetchCmd mb) = .err ∧ tgt = "HEAD")
  ∨ (∃ sf, env.run (fetchCmd mb) = .ok sf ∧ tgt = "origin/" ++ mb)

theorem reset_eq_verifyFailed_queryErr (env : Env) (mb : String)
    (t0 ts : List Cmd) (s1 : String)
    (hd : env.pathIsDir = true) (hg : env.gitDirIsDir = true)
    (hmb : get_main_branch_name env = .ok t0 (some mb))
    (hss : stash_step env = .ok ts ())
    (hco : env.run (checkoutCmd mb) = .ok s1)
    (hcur : env.run showCurrentCmd = .err) :
    reset_repository env =
      .ok (t0 ++ ts ++ [checkoutCmd mb, showCurrentCmd]) .verifyFailed := by
  simp only [checkoutCmd] at hco
  simp only [showCurrentCmd] at hcur
  simp [reset_repository, hd, hg, hmb, hss, hco, hcur, run_command, substGit,
    StepResult.andThen, checkoutCmd, showCurrentCmd]

theorem reset_eq_verifyFailed_mismatch (env : Env) (mb : String)
    (t0 ts : List Cmd) (s1 s2 : String)
    (hd : env.pathIsDir = true) (hg : env.gitDirIsDir = true)
    (hmb : get_main_branch_name env = .ok t0 (some mb))
    (hss : stash_step env = .ok ts ())
    (hco : env.run (checkoutCmd mb) = .ok s1)
    (hcur : env.run showCurrentCmd = .ok s2) (hne : pyStrip s2 ≠ mb) :
    reset_repository env =
      .ok (t0 ++ ts ++ [checkoutCmd mb, showCurrentCmd]) .verifyFailed := by
  simp only [checkoutCmd] at hco
  simp only [showCurrentCmd] at hcur
  simp [reset_repository, hd, hg, hmb, hss, hco, hcur, hne, run_command,
    substGit, StepResult.andThen, checkoutCmd, showCurrentCmd]

theorem reset_eq_resetFailed (env : Env) (mb tgt : String)
    (t0 ts : List Cmd) (s1 s2 : String)
    (hd : env.pathIsDir = true) (hg : env.gitDirIsDir = true)
    (hmb : get_main_branch_name env = .ok t0 (some mb))
    (hss : stash_step env = .ok ts ())
    (hco : env.run (checkoutCmd mb) = .ok s1)
    (hcur : env.run showCurrentCmd = .ok s2) (hmatch : pyStrip s2 = mb)
    (htgt : FetchGives env mb tgt)
    (hrs : env.run (resetCmd tgt) = .err) :
    reset_repository env =
      .ok (t0 ++ ts ++ [checkoutCmd mb, showCurrentCmd, fetchCmd mb,
        resetCmd tgt]) .resetFailed := by
  simp only [checkoutCmd] at hco
  simp only [showCurrentCmd] at hcur
  simp only [resetCmd] at hrs
  rcases htgt with ⟨hf, htgt⟩ | ⟨sf, hf, htgt⟩ <;> subst htgt <;>
    simp only [fetchCmd] at hf <;>
    simp [reset_repository, sync_tail, hd, hg, hmb, hss, hco, hcur, hmatch,
      hf, hrs, run_command, substGit, StepResult.andThen, checkoutCmd,
      showCurrentCmd, fetchCmd, resetCmd]

theorem reset_eq_completed (env : Env) (mb tgt : String)
    (t0 ts tp : List Cmd) (s1 s2 s3 : String)
    (hd : env.pathIsDir = true) (hg : env.gitDirIsDir = true)
    (hmb : get_main_branch_name env = .ok t0 (some mb))
    (hss : stash_step env = .ok ts ())
    (hco : env.run (checkoutCmd mb) = .ok s1)
    (hcur : env.run showCurrentCmd = .ok s2) (hmatch : pyStrip s2 = mb)
    (htgt : FetchGives env mb tgt)
    (hrs : env.run (resetCmd tgt) = .ok s3)
    (hcl : env.run cleanCmd ≠ .notFound)
    (hp : prune_step env mb = .ok tp ()) :
    reset_repository env =
      .ok (t0 ++ ts ++ [checkoutCmd mb, showCurrentCmd, fetchCmd mb,
        resetCmd tgt, cleanCmd] ++ tp) .completed := by
  simp only [checkoutCmd] at hco
  simp only [showCurrentCmd] at hcur
  simp only [resetCmd] at hrs
  simp only [cleanCmd] at hcl
  cases hc : env.run [GIT_EXECUTABLE, "clean", "-fdx"] with
  | notFound => exact absurd hc hcl
  | ok sc =>
    rcases htgt with ⟨hf, htgt⟩ | ⟨sf, hf, htgt⟩ <;> subst htgt <;>
      simp only [fetchCmd] at hf <;>
      simp [reset_repository, sync_tail, hd, hg, hmb, hss, hco, hcur, hmatch,
        hf, hrs, hc, hp, run_command, substGit, StepResult.andThen,
        checkoutCmd, showCurrentCmd, fetchCmd, resetCmd, cleanCmd]
  | err =>
    rcases htgt with ⟨hf, htgt⟩ | ⟨sf, hf, htgt⟩ <;> subst htgt <;>
      simp only [fetchCmd] at hf <;>
      simp [reset_repository, sync_tail, hd, hg, hmb, hss, hco, hcur, hmatch,
        hf, hrs, hc, hp, run_command, substGit, StepResult.andThen,
        checkoutCmd, showCurrentCmd, fetchCmd, resetCmd, cleanCmd]

/-! ## Claim C7 — checkout verification gates all later steps -/

/-- C7: when the run reaches the checkout step and checkout succeeds, but
the subsequent current-branch query either fails or reports a branch
other than the resolved trunk, the run aborts as `verifyFailed` having
issued only the resolver queries, the stash commands, the checkout and
the branch query — no fetch, hard-reset, clean, branch-listing or
branch-deletion command appears in the trace. -/
theorem C7_checkout_verification_gates_run (env : Env) (mb : String)
    (t0 ts : List Cmd) (s1 : String)
    (hd : env.pathIsDir = true) (hg : env.gitDirIsDir = true)
    (hmb : get_main_branch_name env = .ok t0 (some mb))
    (hss : stash_step env = .ok ts ())
    (hco : env.run (checkoutCmd mb) = .ok s1)
    (hver : env.run showCurrentCmd = .err ∨
      ∃ s2, env.run showCurrentCmd = .ok s2 ∧ pyStrip s2 ≠ mb) :
    reset_repository env =
      .ok (t0 ++ ts ++ [checkoutCmd mb, showCurrentCmd]) .verifyFailed
    ∧ ∀ c ∈ (reset_repository env).trace, isPostVerifyCmd c = false := by
  have heq : reset_repository env =
      .ok (t0 ++ ts ++ [checkoutCmd mb, showCurrentCmd]) .verifyFailed := by
    rcases hver with h | ⟨s2, h, hne⟩
    · exact reset_eq_verifyFailed_queryErr env mb t0 ts s1 hd hg hmb hss hco h
    · exact reset_eq_verifyFailed_mismatch env mb t0 ts s1 s2 hd hg hmb hss
        hco h hne
  refine ⟨heq, ?_⟩
  rw [heq]
  intro c hc
  simp [StepResult.trace] at hc
  rcases hc with hc | hc | hc | hc
  · rcases get_main_trace_shape env c (by rw [hmb]; exact hc) with h | h <;>
      simp [h, isPostVerifyCmd, showRefMain, showRefMaster]
  · rcases stash_trace_shape env c (by rw [hss]; exact hc) with h | h <;>
      simp [h, isPostVerifyCmd, stashCmd, stashDropCmd]
  · simp [hc, isPostVerifyCmd, checkoutCmd]
  · simp [hc, isPostVerifyCmd, showCurrentCmd]

/-- An environment in which `main` exists and checks out, but the
current-branch query fails. -/
def envVerifyFail : Env :=
  { gitIsFile := true, pathExi := true, pathIsDir := true, gitDirIsDir := true,
    stashReturncode := 1, stashStdout := "",
    run := fun c =>
      if c = showRefMain then .ok ""
      else if c = checkoutCmd "main" then .ok "Switched" else .err }

/-- Witness for C7 at a concrete environment. -/
theorem C7_checkout_verification_gates_run_witness :
    reset_repository envVerifyFail =
      .ok ([showRefMain] ++ [stashCmd] ++ [checkoutCmd "main", showCurrentCmd])
        .verifyFailed
    ∧ ∀ c ∈ (reset_repository envVerifyFail).trace, isPostVerifyCmd c = false :=
  C7_checkout_verification_gates_run envVerifyFail "main" [showRefMain]
    [stashCmd] "Switched" rfl rfl (by decide) (by decide) (by decide)
    (Or.inl (by decide))

/-! ## Claim C3 — a failed hard reset stops the run before clean/prune -/

/-- C3: when the run reaches the hard reset (whose target is dictated by
the fetch outcome) and the reset command fails, `reset_repository`
terminates immediately with `resetFailed`: its trace ends at the reset
command and contains no clean, branch-listing or branch-deletion
command. -/
theorem C3_reset_failure_stops_run (env : Env) (mb tgt : String)
    (t0 ts : List Cmd) (s1 s2 : String)
    (hd : env.pathIsDir = true) (hg : env.gitDirIsDir = true)
    (hmb : get_main_branch_name env = .ok t0 (some mb))
    (hss : stash_step env = .ok ts ())
    (hco : env.run (checkoutCmd mb) = .ok s1)
    (hcur : env.run showCurrentCmd = .ok s2) (hmatch : pyStrip s2 = mb)
    (htgt : FetchGives env mb tgt)
    (hrs : env.run (resetCmd tgt) = .err) :
    reset_repository env =
      .ok (t0 ++ ts ++ [checkoutCmd mb, showCurrentCmd, fetchCmd mb,
        resetCmd tgt]) .resetFailed
    ∧ ∀ c ∈ (reset_repository env).trace, isCleanOrPruneCmd c = false := by
  have heq := reset_eq_resetFailed env mb tgt t0 ts s1 s2 hd hg hmb hss hco
    hcur hmatch htgt hrs
  refine ⟨heq, ?_⟩
  rw [heq]
  intro c hc
  simp [StepResult.trace] at hc
  rcases hc with hc | hc | hc | hc | hc | hc
  · rcases get_main_trace_shape env c (by rw [hmb]; exact hc) with h | h <;>
      simp [h, isCleanOrPruneCmd, showRefMain, showRefMaster]
  · rcases stash_trace_shape env c (by rw [hss]; exact hc) with h | h <;>
      simp [h, isCleanOrPruneCmd, stashCmd, stashDropCmd]
  · simp [hc, isCleanOrPruneCmd, checkoutCmd]
  · simp [hc, isCleanOrPruneCmd, showCurrentCmd]
  · simp [hc, isCleanOrPruneCmd, fetchCmd]
  · simp [hc, isCleanOrPruneCmd, resetCmd]

/-- An environment in which `main` exists, checkout and its verification
succeed, but fetch and the hard reset to local `HEAD` fail. -/
def envResetFail : Env :=
  { gitIsFile := true, pathExi := true, pathIsDir := true, gitDirIsDir := true,
    stashReturncode := 1, stashStdout := "",
    run := fun c =>
      if c = showRefMain then .ok ""
      else if c = checkoutCmd "main" then .ok "Switched"
      else if c = showCurrentCmd then .ok "main" else .err }

/-- Witness for C3 at a concrete environment. -/
theorem C3_reset_failure_stops_run_witness :
    reset_repository envResetFail =
      .ok ([showRefMain] ++ [stashCmd] ++ [checkoutCmd "main", showCurrentCmd,
        fetchCmd "main", resetCmd "HEAD"]) .resetFailed
    ∧ ∀ c ∈ (reset_repository envResetFail).trace,
        isCleanOrPruneCmd c = false :=
  C3_reset_failure_stops_run envResetFail "main" "HEAD" [showRefMain]
    [stashCmd] "Switched" "main" rfl rfl (by decide) (by decide) (by decide)
    (by decide) (by decide) (Or.inl ⟨by decide, rfl⟩) (by decide)

/-! ## Claim C8 — the stash step is advisory, never gating -/

theorem stash_step_cases (env : Env) (hdrop : env.run stashDropCmd ≠ .notFound) :
    stash_step env = .ok [stashCmd] () ∨
    stash_step env = .ok [stashCmd, stashDropCmd] () := by
  unfold stash_step
  split
  · cases h : env.run stashDropCmd with
    | ok s =>
      right
      simp only [stashDropCmd] at h
      simp [run_command, substGit, h, stashDropCmd]
    | err =>
      right
      simp only [stashDropCmd] at h
      simp [run_command, substGit, h, stashDropCmd]
    | notFound => exact absurd h hdrop
  · left; rfl

/-- C8: the stash step never aborts the run.  In each of its three cases
— a stash entry was created and is dropped (a failed drop included), the
stash command itself failed, or there was nothing to stash — the step
returns normally, with a trace that is either the stash push alone or the
push followed by the drop; and the run then continues to the checkout
step: the checkout command appears in the trace of the full run. -/
theorem C8_stash_never_aborts (env : Env) (mb : String) (t0 : List Cmd)
    (hdrop : env.run stashDropCmd ≠ .notFound)
    (hd : env.pathIsDir = true) (hg : env.gitDirIsDir = true)
    (hmb : get_main_branch_name env = .ok t0 (some mb)) :
    (∃ ts, stash_step env = .ok ts () ∧
      (ts = [stashCmd] ∨ ts = [stashCmd, stashDropCmd]))
    ∧ checkoutCmd mb ∈ (reset_repository env).trace := by
  rcases stash_step_cases env hdrop with hss | hss <;>
  · refine ⟨⟨_, hss, by simp⟩, ?_⟩
    unfold reset_repository
    rw [if_neg (by simp [hd, hg])]
    rw [hmb]
    apply mem_andThen_right
    dsimp only
    rw [hss]
    apply mem_andThen_right
    dsimp only
    apply mem_andThen_left
    rw [run_command_trace]
    simp [substGit, checkoutCmd]

/-- Witness for C8 at a concrete environment (nothing to stash, stash
return code non-zero). -/
theorem C8_stash_never_aborts_witness :
    (∃ ts, stash_step envMainOnly = .ok ts () ∧
      (ts = [stashCmd] ∨ ts = [stashCmd, stashDropCmd]))
    ∧ checkoutCmd "main" ∈ (reset_repository envMainOnly).trace :=
  C8_stash_never_aborts envMainOnly "main" [showRefMain] (by decide) rfl rfl
    (by decide)

/-! ## Claim C10 — an empty branch listing is skipped like a failed one -/

theorem prune_eq_skip (env : Env) (mb : String)
    (hlist : env.run branchListCmd = .err ∨
      ∃ s, env.run branchListCmd = .ok s ∧ pyStrip s = "") :
    prune_step env mb = .ok [branchListCmd] () := by
  rcases hlist with h | ⟨s, h, hs⟩
  · simp only [branchListCmd] at h
    simp [prune_step, run_command, substGit, h, StepResult.andThen,
      branchListCmd]
  · simp only [branchListCmd] at h
    simp [prune_step, run_command, substGit, h, hs, StepResult.andThen,
      branchListCmd]

/-- C10: on a run that reaches the pruning step, a branch listing that
succeeds with empty (stripped) output is treated exactly like a failed
listing — Python truthiness does not distinguish `None` from `""`: in
both cases the pruning step issues only the listing command, no
branch-deletion command is ever issued, and the run still completes. -/
theorem C10_empty_listing_skips_prune (env : Env) (mb tgt : String)
    (t0 ts : List Cmd) (s1 s2 s3 : String)
    (hd : env.pathIsDir = true) (hg : env.gitDirIsDir = true)
    (hmb : get_main_branch_name env = .ok t0 (some mb))
    (hss : stash_step env = .ok ts ())
    (hco : env.run (checkoutCmd mb) = .ok s1)
    (hcur : env.run showCurrentCmd = .ok s2) (hmatch : pyStrip s2 = mb)
    (htgt : FetchGives env mb tgt)
    (hrs : env.run (resetCmd tgt) = .ok s3)
    (hcl : env.run cleanCmd ≠ .notFound)
    (hlist : env.run branchListCmd = .err ∨
      ∃ s, env.run branchListCmd = .ok s ∧ pyStrip s = "") :
    reset_repository env =
      .ok (t0 ++ ts ++ [checkoutCmd mb, showCurrentCmd, fetchCmd mb,
        resetCmd tgt, cleanCmd] ++ [branchListCmd]) .completed
    ∧ ∀ c ∈ (reset_repository env).trace, ∀ b,
        c ≠ branchDelForced b ∧ c ≠ branchDelSafe b := by
  have hp := prune_eq_skip env mb hlist
  have heq := reset_eq_completed env mb tgt t0 ts [branchListCmd] s1 s2 s3
    hd hg hmb hss hco hcur hmatch htgt hrs hcl hp
  refine ⟨heq, ?_⟩
  rw [heq]
  intro c hc b
  simp [StepResult.trace] at hc
  rcases hc with hc | hc | hc | hc | hc | hc | hc | hc
  · rcases get_main_trace_shape env c (by rw [hmb]; exact hc) with h | h <;>
      simp [h, showRefMain, showRefMaster, branchDelForced, branchDelSafe]
  · rcases stash_trace_shape env c (by rw [hss]; exact hc) with h | h <;>
      simp [h, stashCmd, stashDropCmd, branchDelForced, branchDelSafe]
  · simp [hc, checkoutCmd, branchDelForced, branchDelSafe]
  · simp [hc, showCurrentCmd, branchDelForced, branchDelSafe]
  · simp [hc, fetchCmd, branchDelForced, branchDelSafe]
  · simp [hc, resetCmd, branchDelForced, branchDelSafe]
  · simp [hc, cleanCmd, branchDelForced, branchDelSafe]
  · simp [hc, branchListCmd, branchDelForced, branchDelSafe]

/-- An environment for C10: everything needed for a full run succeeds and
the branch listing returns whitespace only. -/
def envEmptyListing : Env :=
  { gitIsFile := true, pathExi := true, pathIsDir := true, gitDirIsDir := true,
    stashReturncode := 1, stashStdout := "",
    run := fun c =>
      if c = showRefMain then .ok ""
      else if c = checkoutCmd "main" then .ok "Switched"
      else if c = showCurrentCmd then .ok "main"
      else if c = resetCmd "HEAD" then .ok "HEAD is now at 0000000"
      else if c = branchListCmd then .ok "\n" else .err }

/-- Witness for C10 at a concrete environment. -/
theorem C10_empty_listing_skips_prune_witness :
    reset_repository envEmptyListing =
      .ok ([showRefMain] ++ [stashCmd] ++ [checkoutCmd "main", showCurrentCmd,
        fetchCmd "main", resetCmd "HEAD", cleanCmd] ++ [branchListCmd])
        .completed
    ∧ ∀ c ∈ (reset_repository envEmptyListing).trace, ∀ b,
        c ≠ branchDelForced b ∧ c ≠ branchDelSafe b :=
  C10_empty_listing_skips_prune envEmptyListing "main" "HEAD" [showRefMain]
    [stashCmd] "Switched" "main" "HEAD is now at 0000000" rfl rfl (by decide)
    (by decide) (by decide) (by decide) (by decide)
    (Or.inl ⟨by decide, rfl⟩) (by decide) (by decide)
    (Or.inr ⟨"\n", by decide, by decide⟩)

/-- Every command the pruning loop issues is a forced or lenient deletion
of a branch other than the main one. -/
theorem delete_branches_trace_shape (env : Env) (mb : String)
    (bs : List String) :
    ∀ c ∈ (delete_branches env mb bs).trace,
      ∃ b, b ≠ mb ∧ (c = branchDelForced b ∨ c = branchDelSafe b) := by
  induction bs with
  | nil => intro c hc; simp [delete_branches, StepResult.trace] at hc
  | cons b rest ih =>
    intro c hc
    unfold delete_branches at hc
    by_cases hb : b = mb
    · rw [if_pos hb] at hc
      exact ih c hc
    · rw [if_neg hb] at hc
      rcases trace_andThen_cases _ _ _ hc with h | ⟨t, r, hr, h⟩
      · rw [run_command_trace] at h
        simp [substGit] at h
        exact ⟨b, hb, Or.inl (by simp [branchDelForced, h])⟩
      · cases r with
        | some s =>
          dsimp only at h
          rcases trace_andThen_cases _ _ _ h with h2 | ⟨t2, p, hp, h2⟩
          · exact ih c h2
          · simp [StepResult.trace] at h2
        | none =>
          dsimp only at h
          rcases trace_andThen_cases _ _ _ h with h2 | ⟨t2, r2, hr2, h2⟩
          · rw [run_command_trace] at h2
            simp [substGit] at h2
            exact ⟨b, hb, Or.inr (by simp [branchDelSafe, h2])⟩
          · cases r2 with
            | some s2 =>
              dsimp only at h2
              rcases trace_andThen_cases _ _ _ h2 with h3 | ⟨t3, p, hp3, h3⟩
              · exact ih c h3
              · simp [StepResult.trace] at h3
            | none =>
              dsimp only at h2
              rcases trace_andThen_cases _ _ _ h2 with h3 | ⟨t3, p, hp3, h3⟩
              · exact ih c h3
              · simp [StepResult.trace] at h3

/-- Every command the Branch Pruner issues is the branch listing or a
deletion of a branch other than the main one. -/
theorem prune_trace_shape (env : Env) (mb : String) :
    ∀ c ∈ (prune_step env mb).trace,
      c = branchListCmd ∨
        ∃ b, b ≠ mb ∧ (c = branchDelForced b ∨ c = branchDelSafe b) := by
  intro c hc
  unfold prune_step at hc
  rcases trace_andThen_cases _ _ _ hc with h | ⟨t, bo, hbo, h⟩
  · rw [run_command_trace] at h
    simp [substGit] at h
    exact Or.inl (by simp [branchListCmd, h])
  · cases bo with
    | none => simp [StepResult.trace] at h
    | some s =>
      dsimp only at h
      by_cases hs : s = ""
      · rw [if_pos hs] at h
        simp [StepResult.trace] at h
      · rw [if_neg hs] at h
        rcases trace_andThen_cases _ _ _ h with h2 | ⟨t2, p, hp, h2⟩
        · exact Or.inr (delete_branches_trace_shape env mb _ c h2)
        · simp [StepResult.trace] at h2

/-! ## Claim C4 — the reset target is dictated by the fetch outcome -/

/-- The hard-reset target `reset_repository` derives from the fetch
outcome: local `HEAD` on a failed fetch, the remote-tracking reference on
a successful one. -/
def fetchTarget (mb : String) (fe : Option String) : String :=
  match fe with
  | none => "HEAD"
  | some _ => "origin/" ++ mb

theorem trace_ok_andThen {α β : Type} (t : List Cmd) (a : α)
    (f : α → StepResult β) :
    ((StepResult.ok t a).andThen f).trace = t ++ (f a).trace := by
  cases hfa : f a with
  | ok t2 b => rw [ok_andThen_ok hfa]; simp [StepResult.trace, hfa]
  | exit t2 c => rw [ok_andThen_exit hfa]; simp [StepResult.trace, hfa]

/-- The trace of a run that passed checkout verification: the resolver
queries, the stash commands, checkout, the branch query, the fetch, and
then whatever the tail (hard reset onwards) issued. -/
theorem reset_trace_after_verify (env : Env) (mb : String)
    (t0 ts : List Cmd) (s1 s2 : String) (fe : Option String)
    (hd : env.pathIsDir = true) (hg : env.gitDirIsDir = true)
    (hmb : get_main_branch_name env = .ok t0 (some mb))
    (hss : stash_step env = .ok ts ())
    (hco : env.run (checkoutCmd mb) = .ok s1)
    (hcur : env.run showCurrentCmd = .ok s2) (hmatch : pyStrip s2 = mb)
    (hfe : run_command env ["git", "fetch", "origin", mb] = .ok [fetchCmd mb] fe) :
    (reset_repository env).trace =
      t0 ++ ts ++ [checkoutCmd mb, showCurrentCmd, fetchCmd mb]
        ++ (sync_tail env mb fe).trace := by
  have hco2 : run_command env ["git", "checkout", mb] =
      .ok [checkoutCmd mb] (some (pyStrip s1)) := by
    simp only [checkoutCmd] at hco
    simp [run_command, substGit, hco, checkoutCmd]
  have hcur2 : run_command env ["git", "branch", "--show-current"] =
      .ok [showCurrentCmd] (some (pyStrip s2)) := by
    simp only [showCurrentCmd] at hcur
    simp [run_command, substGit, hcur, showCurrentCmd]
  simp [reset_repository, hd, hg, hmb, hss, hco2, hcur2, hmatch, hfe,
    trace_ok_andThen]

theorem sync_tail_reset_mem (env : Env) (mb : String) (fe : Option String) :
    resetCmd (fetchTarget mb fe) ∈ (sync_tail env mb fe).trace := by
  cases fe <;>
  · unfold sync_tail
    dsimp only [fetchTarget]
    apply mem_andThen_left
    rw [run_command_trace]
    simp [substGit, resetCmd, fetchTarget]

theorem sync_tail_reset_unique (env : Env) (mb : String) (fe : Option String)
    (tgt' : String) (h : resetCmd tgt' ∈ (sync_tail env mb fe).trace) :
    tgt' = fetchTarget mb fe := by
  have main : ∀ target : String,
      resetCmd tgt' ∈
        ((run_command env ["git", "reset", "--hard", target]).andThen
          (fun rs =>
          match rs with
          | none => (.ok [] .resetFailed : StepResult RunStatus)
          | some _ =>
            (run_command env ["git", "clean", "-fdx"]).andThen (fun _ =>
            (prune_step env mb).andThen (fun _ =>
              .ok [] .completed)))).trace →
      tgt' = target := by
    intro target hmem
    rcases trace_andThen_cases _ _ _ hmem with h1 | ⟨t, rs, hrs, h1⟩
    · rw [run_command_trace] at h1
      simp [substGit, resetCmd] at h1
      exact h1
    · cases rs with
      | none => simp [StepResult.trace] at h1
      | some _ =>
        dsimp only at h1
        rcases trace_andThen_cases _ _ _ h1 with h2 | ⟨t2, _, _, h2⟩
        · rw [run_command_trace] at h2
          simp [substGit, resetCmd] at h2
        · rcases trace_andThen_cases _ _ _ h2 with h3 | ⟨t3, _, _, h3⟩
          · rcases prune_trace_shape env mb _ h3 with h4 | ⟨b, _, h4 | h4⟩ <;>
              simp [resetCmd, branchListCmd, branchDelForced,
                branchDelSafe] at h4
          · simp [StepResult.trace] at h3
  cases fe with
  | none => exact main "HEAD" (by simpa [sync_tail, fetchTarget] using h)
  | some s =>
    exact main ("origin/" ++ mb) (by simpa [sync_tail, fetchTarget] using h)

/-- C4: on a run that reaches the fetch step (checkout and its
verification succeeded), the target of the subsequent hard reset is
dictated by the fetch outcome — `origin/<trunk>` when the fetch
succeeded, the local `HEAD` when it failed (the run does not abort on a
failed fetch: the hard-reset command is still issued) — and no hard-reset
command with any other target ever appears in the run's trace. -/
theorem C4_fetch_outcome_selects_reset_target (env : Env) (mb tgt : String)
    (t0 ts : List Cmd) (s1 s2 : String)
    (hd : env.pathIsDir = true) (hg : env.gitDirIsDir = true)
    (hmb : get_main_branch_name env = .ok t0 (some mb))
    (hss : stash_step env = .ok ts ())
    (hco : env.run (checkoutCmd mb) = .ok s1)
    (hcur : env.run showCurrentCmd = .ok s2) (hmatch : pyStrip s2 = mb)
    (htgt : FetchGives env mb tgt) :
    resetCmd tgt ∈ (reset_repository env).trace
    ∧ ∀ tgt', resetCmd tgt' ∈ (reset_repository env).trace → tgt' = tgt := by
  have build : ∀ fe : Option String,
      run_command env ["git", "fetch", "origin", mb] = .ok [fetchCmd mb] fe →
      tgt = fetchTarget mb fe →
      resetCmd tgt ∈ (reset_repository env).trace
      ∧ ∀ tgt', resetCmd tgt' ∈ (reset_repository env).trace → tgt' = tgt := by
    intro fe hfe htg
    have htr := reset_trace_after_verify env mb t0 ts s1 s2 fe hd hg hmb hss
      hco hcur hmatch hfe
    constructor
    · rw [htr]
      simp only [List.mem_append]
      exact Or.inr (htg ▸ sync_tail_reset_mem env mb fe)
    · intro tgt' h
      rw [htr] at h
      simp only [List.mem_append] at h
      rcases h with ((h | h) | h) | h
      · rcases get_main_trace_shape env _ (by rw [hmb]; exact h) with h2 | h2 <;>
          simp [resetCmd, showRefMain, showRefMaster] at h2
      · rcases stash_trace_shape env _ (by rw [hss]; exact h) with h2 | h2 <;>
          simp [resetCmd, stashCmd, stashDropCmd] at h2
      · simp only [List.mem_cons, List.not_mem_nil, or_false] at h
        rcases h with h | h | h <;>
          simp [resetCmd, checkoutCmd, showCurrentCmd, fetchCmd] at h
      · rw [htg]
        exact sync_tail_reset_unique env mb fe tgt' h
  rcases htgt with ⟨hf, htg⟩ | ⟨sf, hf, htg⟩
  · refine build none ?_ (by simp [fetchTarget, htg])
    simp only [fetchCmd] at hf
    simp [run_command, substGit, hf, fetchCmd]
  · refine build (some (pyStrip sf)) ?_ (by simp [fetchTarget, htg])
    simp only [fetchCmd] at hf
    simp [run_command, substGit, hf, fetchCmd]

/-- Witness for C4 at a concrete environment (fetch fails, target is the
local `HEAD`). -/
theorem C4_fetch_outcome_selects_reset_target_witness :
    resetCmd "HEAD" ∈ (reset_repository envResetFail).trace
    ∧ ∀ tgt', resetCmd tgt' ∈ (reset_repository envResetFail).trace →
        tgt' = "HEAD" :=
  C4_fetch_outcome_selects_reset_target envResetFail "main" "HEAD"
    [showRefMain] [stashCmd] "Switched" "main" rfl rfl (by decide) (by decide)
    (by decide) (by decide) (by decide) (Or.inl ⟨by decide, rfl⟩)

/-! ## Claim C6 — the two-tier branch deletion policy -/

/-- Full characterization of the pruning loop when no deletion command
hits a launch failure: it returns normally, its trace consists of
deletions of non-trunk branches only, every listed non-trunk branch gets
a forced deletion attempt, a lenient attempt appears exactly for the
branches whose forced deletion failed, and the failed list collects
exactly the branches for which both attempts failed. -/
theorem delete_branches_spec (env : Env) (mb : String) (bs : List String)
    (hnf : ∀ b, env.run (branchDelForced b) ≠ .notFound ∧
      env.run (branchDelSafe b) ≠ .notFound) :
    ∃ t n failed, delete_branches env mb bs = .ok t (n, failed) ∧
      (∀ c ∈ t, ∃ b, b ∈ bs ∧ b ≠ mb ∧
        (c = branchDelForced b ∨ c = branchDelSafe b)) ∧
      (∀ b, branchDelForced b ∈ t ↔ (b ∈ bs ∧ b ≠ mb)) ∧
      (∀ b, branchDelSafe b ∈ t ↔
        (b ∈ bs ∧ b ≠ mb ∧ env.run (branchDelForced b) = .err)) ∧
      (∀ b, b ∈ failed ↔ (b ∈ bs ∧ b ≠ mb ∧
        env.run (branchDelForced b) = .err ∧
        env.run (branchDelSafe b) = .err)) := by
  induction bs with
  | nil => exact ⟨[], 0, [], rfl, by simp, by simp, by simp, by simp⟩
  | cons b' rest ih =>
    obtain ⟨t, n, failed, heq, hshape, hfd, hsafe, hfail⟩ := ih
    by_cases hb : b' = mb
    · refine ⟨t, n, failed, ?_, ?_, ?_, ?_, ?_⟩
      · simp only [delete_branches]
        rw [if_pos hb]
        exact heq
      · intro c hc
        obtain ⟨b, hbs, hne, hor⟩ := hshape c hc
        exact ⟨b, List.mem_cons_of_mem _ hbs, hne, hor⟩
      · intro b
        constructor
        · intro h
          obtain ⟨hbs, hne⟩ := (hfd b).mp h
          exact ⟨List.mem_cons_of_mem _ hbs, hne⟩
        · rintro ⟨hbs, hne⟩
          rcases List.mem_cons.mp hbs with rfl | hbs
          · exact absurd hb hne
          · exact (hfd b).mpr ⟨hbs, hne⟩
      · intro b
        constructor
        · intro h
          obtain ⟨hbs, hne, herr⟩ := (hsafe b).mp h
          exact ⟨List.mem_cons_of_mem _ hbs, hne, herr⟩
        · rintro ⟨hbs, hne, herr⟩
          rcases List.mem_cons.mp hbs with rfl | hbs
          · exact absurd hb hne
          · exact (hsafe b).mpr ⟨hbs, hne, herr⟩
      · intro b
        constructor
        · intro h
          obtain ⟨hbs, hne, he1, he2⟩ := (hfail b).mp h
          exact ⟨List.mem_cons_of_mem _ hbs, hne, he1, he2⟩
        · rintro ⟨hbs, hne, he1, he2⟩
          rcases List.mem_cons.mp hbs with rfl | hbs
          · exact absurd hb hne
          · exact (hfail b).mpr ⟨hbs, hne, he1, he2⟩
    · cases h1 : env.run (branchDelForced b') with
      | notFound => exact absurd h1 (hnf b').1
      | ok s =>
        have hrc : run_command env ["git", "branch", "-D", b'] =
            .ok [branchDelForced b'] (some (pyStrip s)) := by
          simp only [branchDelForced] at h1
          simp [run_command, substGit, h1, branchDelForced]
        refine ⟨branchDelForced b' :: t, n + 1, failed, ?_, ?_, ?_, ?_, ?_⟩
        · simp [delete_branches, hb, hrc, heq, StepResult.andThen]
        · intro c hc
          rcases List.mem_cons.mp hc with rfl | hc
          · exact ⟨b', List.mem_cons_self _ _, hb, Or.inl rfl⟩
          · obtain ⟨b, hbs, hne, hor⟩ := hshape c hc
            exact ⟨b, List.mem_cons_of_mem _ hbs, hne, hor⟩
        · intro b
          constructor
          · intro h
            rcases List.mem_cons.mp h with heq2 | h
            · have hbb : b = b' := by simpa [branchDelForced] using heq2
              subst hbb
              exact ⟨List.mem_cons_self _ _, hb⟩
            · obtain ⟨hbs, hne⟩ := (hfd b).mp h
              exact ⟨List.mem_cons_of_mem _ hbs, hne⟩
          · rintro ⟨hbs, hne⟩
            rcases List.mem_cons.mp hbs with rfl | hbs
            · exact List.mem_cons_self _ _
            · exact List.mem_cons_of_mem _ ((hfd b).mpr ⟨hbs, hne⟩)
        · intro b
          constructor
          · intro h
            rcases List.mem_cons.mp h with heq2 | h
            · exact absurd heq2 (by simp [branchDelForced, branchDelSafe])
            · obtain ⟨hbs, hne, herr⟩ := (hsafe b).mp h
              exact ⟨List.mem_cons_of_mem _ hbs, hne, herr⟩
          · rintro ⟨hbs, hne, herr⟩
            rcases List.mem_cons.mp hbs with rfl | hbs
            · simp [h1] at herr
            · exact List.mem_cons_of_mem _ ((hsafe b).mpr ⟨hbs, hne, herr⟩)
        · intro b
          constructor
          · intro h
            obtain ⟨hbs, hne, he1, he2⟩ := (hfail b).mp h
            exact ⟨List.mem_cons_of_mem _ hbs, hne, he1, he2⟩
          · rintro ⟨hbs, hne, he1, he2⟩
            rcases List.mem_cons.mp hbs with rfl | hbs
            · simp [h1] at he1
            · exact (hfail b).mpr ⟨hbs, hne, he1, he2⟩
      | err =>
        have hrc1 : run_command env ["git", "branch", "-D", b'] =
            .ok [branchDelForced b'] none := by
          simp only [branchDelForced] at h1
          simp [run_command, substGit, h1, branchDelForced]
        cases h2 : env.run (branchDelSafe b') with
        | notFound => exact absurd h2 (hnf b').2
        | ok s2 =>
          have hrc2 : run_command env ["git", "branch", "-d", b'] =
              .ok [branchDelSafe b'] (some (pyStrip s2)) := by
            simp only [branchDelSafe] at h2
            simp [run_command, substGit, h2, branchDelSafe]
          refine ⟨branchDelForced b' :: branchDelSafe b' :: t, n + 1, failed,
            ?_, ?_, ?_, ?_, ?_⟩
          · simp [delete_branches, hb, hrc1, hrc2, heq, StepResult.andThen]
          · intro c hc
            rcases List.mem_cons.mp hc with rfl | hc
            · exact ⟨b', List.mem_cons_self _ _, hb, Or.inl rfl⟩
            · rcases List.mem_cons.mp hc with rfl | hc
              · exact ⟨b', List.mem_cons_self _ _, hb, Or.inr rfl⟩
              · obtain ⟨b, hbs, hne, hor⟩ := hshape c hc
                exact ⟨b, List.mem_cons_of_mem _ hbs, hne, hor⟩
          · intro b
            constructor
            · intro h
              rcases List.mem_cons.mp h with heq2 | h
              · have hbb : b = b' := by simpa [branchDelForced] using heq2
                subst hbb
                exact ⟨List.mem_cons_self _ _, hb⟩
              · rcases List.mem_cons.mp h with heq2 | h
                · exact absurd heq2 (by simp [branchDelForced, branchDelSafe])
                · obtain ⟨hbs, hne⟩ := (hfd b).mp h
                  exact ⟨List.mem_cons_of_mem _ hbs, hne⟩
            · rintro ⟨hbs, hne⟩
              rcases List.mem_cons.mp hbs with rfl | hbs
              · exact List.mem_cons_self _ _
              · exact List.mem_cons_of_mem _
                  (List.mem_cons_of_mem _ ((hfd b).mpr ⟨hbs, hne⟩))
          · intro b
            constructor
            · intro h
              rcases List.mem_cons.mp h with heq2 | h
              · exact absurd heq2 (by simp [branchDelForced, branchDelSafe])
              · rcases List.mem_cons.mp h with heq2 | h
                · have hbb : b = b' := by simpa [branchDelSafe] using heq2
                  subst hbb
                  exact ⟨List.mem_cons_self _ _, hb, h1⟩
                · obtain ⟨hbs, hne, herr⟩ := (hsafe b).mp h
                  exact ⟨List.mem_cons_of_mem _ hbs, hne, herr⟩
            · rintro ⟨hbs, hne, herr⟩
              rcases List.mem_cons.mp hbs with rfl | hbs
              · exact List.mem_cons_of_mem _ (List.mem_cons_self _ _)
              · exact List.mem_cons_of_mem _
                  (List.mem_cons_of_mem _ ((hsafe b).mpr ⟨hbs, hne, herr⟩))
          · intro b
            constructor
            · intro h
              obtain ⟨hbs, hne, he1, he2⟩ := (hfail b).mp h
              exact ⟨List.mem_cons_of_mem _ hbs, hne, he1, he2⟩
            · rintro ⟨hbs, hne, he1, he2⟩
              rcases List.mem_cons.mp hbs with rfl | hbs
              · simp [h2] at he2
              · exact (hfail b).mpr ⟨hbs, hne, he1, he2⟩
        | err =>
          have hrc2 : run_command env ["git", "branch", "-d", b'] =
              .ok [branchDelSafe b'] none := by
            simp only [branchDelSafe] at h2
            simp [run_command, substGit, h2, branchDelSafe]
          refine ⟨branchDelForced b' :: branchDelSafe b' :: t, n, b' :: failed,
            ?_, ?_, ?_, ?_, ?_⟩
          · simp [delete_branches, hb, hrc1, hrc2, heq, StepResult.andThen]
          · intro c hc
            rcases List.mem_cons.mp hc with rfl | hc
            · exact ⟨b', List.mem_cons_self _ _, hb, Or.inl rfl⟩
            · rcases List.mem_cons.mp hc with rfl | hc
              · exact ⟨b', List.mem_cons_self _ _, hb, Or.inr rfl⟩
              · obtain ⟨b, hbs, hne, hor⟩ := hshape c hc
                exact ⟨b, List.mem_cons_of_mem _ hbs, hne, hor⟩
          · intro b
            constructor
            · intro h
              rcases List.mem_cons.mp h with heq2 | h
              · have hbb : b = b' := by simpa [branchDelForced] using heq2
                subst hbb
                exact ⟨List.mem_cons_self _ _, hb⟩
              · rcases List.mem_cons.mp h with heq2 | h
                · exact absurd heq2 (by simp [branchDelForced, branchDelSafe])
                · obtain ⟨hbs, hne⟩ := (hfd b).mp h
                  exact ⟨List.mem_cons_of_mem _ hbs, hne⟩
            · rintro ⟨hbs, hne⟩
              rcases List.mem_cons.mp hbs with rfl | hbs
              · exact List.mem_cons_self _ _
              · exact List.mem_cons_of_mem _
                  (List.mem_cons_of_mem _ ((hfd b).mpr ⟨hbs, hne⟩))
          · intro b
            constructor
            · intro h
              rcases List.mem_cons.mp h with heq2 | h
              · exact absurd heq2 (by simp [branchDelForced, branchDelSafe])
              · rcases List.mem_cons.mp h with heq2 | h
                · have hbb : b = b' := by simpa [branchDelSafe] using heq2
                  subst hbb
                  exact ⟨List.mem_cons_self _ _, hb, h1⟩
                · obtain ⟨hbs, hne, herr⟩ := (hsafe b).mp h
                  exact ⟨List.mem_cons_of_mem _ hbs, hne, herr⟩
            · rintro ⟨hbs, hne, herr⟩
              rcases List.mem_cons.mp hbs with rfl | hbs
              · exact List.mem_cons_of_mem _ (List.mem_cons_self _ _)
              · exact List.mem_cons_of_mem _
                  (List.mem_cons_of_mem _ ((hsafe b).mpr ⟨hbs, hne, herr⟩))
          · intro b
            constructor
            · intro h
              rcases List.mem_cons.mp h with rfl | h
              · exact ⟨List.mem_cons_self _ _, hb, h1, h2⟩
              · obtain ⟨hbs, hne, he1, he2⟩ := (hfail b).mp h
                exact ⟨List.mem_cons_of_mem _ hbs, hne, he1, he2⟩
            · rintro ⟨hbs, hne, he1, he2⟩
              rcases List.mem_cons.mp hbs with rfl | hbs
              · exact List.mem_cons_self _ _
              · exact List.mem_cons_of_mem _
                  ((hfail b).mpr ⟨hbs, hne, he1, he2⟩)

/-- C6: for every branch in the branch listing other than the resolved
trunk, the pruner attempts a forced deletion, and a lenient deletion
appears in the trace exactly when the forced deletion failed; a branch
for which both attempts fail is recorded in the failed list, and the loop
still returns normally having attempted the forced deletion of every
other non-trunk branch; no deletion command is ever issued for the trunk
branch itself. -/
theorem C6_branch_pruner_two_tier_policy (env : Env) (mb : String)
    (bs : List String)
    (hnf : ∀ b, env.run (branchDelForced b) ≠ .notFound ∧
      env.run (branchDelSafe b) ≠ .notFound) :
    ∃ t n failed, delete_branches env mb bs = .ok t (n, failed) ∧
      (∀ b ∈ bs, b ≠ mb → branchDelForced b ∈ t) ∧
      (∀ b ∈ bs, b ≠ mb →
        (branchDelSafe b ∈ t ↔ env.run (branchDelForced b) = .err)) ∧
      (∀ b ∈ bs, b ≠ mb →
        (b ∈ failed ↔ env.run (branchDelForced b) = .err ∧
          env.run (branchDelSafe b) = .err)) ∧
      (∀ c ∈ t, c ≠ branchDelForced mb ∧ c ≠ branchDelSafe mb) := by
  obtain ⟨t, n, failed, heq, hshape, hfd, hsafe, hfail⟩ :=
    delete_branches_spec env mb bs hnf
  refine ⟨t, n, failed, heq, ?_, ?_, ?_, ?_⟩
  · intro b hbs hne
    exact (hfd b).mpr ⟨hbs, hne⟩
  · intro b hbs hne
    constructor
    · intro h
      exact ((hsafe b).mp h).2.2
    · intro h
      exact (hsafe b).mpr ⟨hbs, hne, h⟩
  · intro b hbs hne
    constructor
    · intro h
      obtain ⟨_, _, he1, he2⟩ := (hfail b).mp h
      exact ⟨he1, he2⟩
    · rintro ⟨he1, he2⟩
      exact (hfail b).mpr ⟨hbs, hne, he1, he2⟩
  · intro c hc
    obtain ⟨b, _, hne, hor⟩ := hshape c hc
    rcases hor with rfl | rfl
    · constructor
      · intro h
        exact hne (by simpa [branchDelForced] using h)
      · simp [branchDelForced, branchDelSafe]
    · constructor
      · simp [branchDelForced, branchDelSafe]
      · intro h
        exact hne (by simpa [branchDelSafe] using h)

/-- An environment for C6: forced deletion succeeds for `feature-a`,
every deletion of `feature-b` fails with a non-zero exit. -/
def envPrune : Env :=
  { gitIsFile := true, pathExi := true, pathIsDir := true, gitDirIsDir := true,
    stashReturncode := 1, stashStdout := "",
    run := fun c => if c = branchDelForced "feature-a" then .ok "Deleted" else .err }

/-- Witness for C6 at a concrete environment and branch listing. -/
theorem C6_branch_pruner_two_tier_policy_witness :
    ∃ t n failed,
      delete_branches envPrune "main" ["main", "feature-a", "feature-b"] =
        .ok t (n, failed) ∧
      (∀ b ∈ ["main", "feature-a", "feature-b"], b ≠ "main" →
        branchDelForced b ∈ t) ∧
      (∀ b ∈ ["main", "feature-a", "feature-b"], b ≠ "main" →
        (branchDelSafe b ∈ t ↔ envPrune.run (branchDelForced b) = .err)) ∧
      (∀ b ∈ ["main", "feature-a", "feature-b"], b ≠ "main" →
        (b ∈ failed ↔ envPrune.run (branchDelForced b) = .err ∧
          envPrune.run (branchDelSafe b) = .err)) ∧
      (∀ c ∈ t, c ≠ branchDelForced "main" ∧ c ≠ branchDelSafe "main") :=
  C6_branch_pruner_two_tier_policy envPrune "main"
    ["main", "feature-a", "feature-b"]
    (fun b => ⟨by simp [envPrune]; split <;> simp,
               by simp [envPrune]; split <;> simp⟩)
